import Mathlib

/-!
Verification of `cop_robber_game.py`: a k-cops-and-robber game played on an
edge-periodic graph `(V, E, tau)`.  We give a shallow embedding of the module:

* presence patterns are finite binary sequences, embedded as `List Bool`
  (symbol 1 maps to `true`, symbol 0 to `false`);
* a game-graph state `(*c, r, s, t)` is embedded as the structure `GGState`;
* `get_game_graph` builds the state list `V_gg` and the arc list `A_gg`:
  the arc list is the set of ordered state pairs accepted by the worker
  body `add_to_arcs` (lines 51-81 of the source), applied to every pair of
  `itertools.product(V_gg, repeat=2)`;
* `game_graph_to_reachability_game` partitions the states;
* `is_kcop_win` consumes an attractor produced by the external solver
  `get_attractor`, which we take as a function parameter.

The module also has a runtime defect: the names `mp` and `Empty` are used
but never bound by any import or assignment.  Name resolution at module
level is embedded separately (`moduleScope`, `resolveName`,
`get_game_graphRun`), so that the pure definitions above describe the data
the construction defines while the `...Run` versions describe what
evaluation actually does.  The `...Run` versions also model the one other
failure evaluation can hit first: the LCM reduce divides by
`math.gcd(x, y) = 0` and raises ZeroDivisionError when the pattern-length
list carries two or more zeros (`pyLcmRun`, `timeHorizonRun`).
-/

namespace CopRobber

variable {α : Type} [DecidableEq α]

/-- A game-graph state `(*c, r, s, t)`: cop positions, robber position,
turn flag (`false` means cops to move), time index. -/
structure GGState (α : Type) where
  cops : List α
  r : α
  s : Bool
  t : ℕ
deriving DecidableEq

/-- The pattern the adjacency matrix stores for the ordered pair `(u, v)`,
source lines 32-34: the entry of `tau` keyed `(u, v)` if one exists, else
the entry keyed `(v, u)` if one exists, else the constant-absent pattern
(the one-symbol string 0).  The Python dict `tau` is embedded as an
association list with the dict lookup. -/
def edgePattern (tau : List ((α × α) × List Bool)) (u v : α) : List Bool :=
  match tau.find? (fun p => decide (p.1 = (u, v))) with
  | some p => p.2
  | none =>
    match tau.find? (fun p => decide (p.1 = (v, u))) with
    | some p => p.2
    | none => [false]

/-- Presence of the pair `(u, v)` at time `t`: the pattern symbol at index
`t % len(pattern)` (source lines 63-65 and 77-78).  The `getD` default is
never reached in any call the module makes: an empty pattern forces a zero
time horizon, hence an empty state set. -/
def present (tau : List ((α × α) × List Bool)) (u v : α) (t : ℕ) : Bool :=
  (edgePattern tau u v).getD (t % (edgePattern tau u v).length) false

/-- The value of the reduce step of source lines 41-42,
`abs(x*y) // gcd(x, y)`, on naturals.  Python raises ZeroDivisionError
when both arguments are zero (`math.gcd(0, 0) = 0`); that raising
behaviour is modelled by `pyLcmRun` below and this total version is used
only for the data content, on inputs where the raise cannot happen. -/
def pyLcm (x y : ℕ) : ℕ := x * y / Nat.gcd x y

/-- Source lines 37-42: `1` when `tau` is empty, else the left fold of
`pyLcm` over `pattern_lengths = list(map(len, tau.values()))` starting
from the first length, which is what `functools.reduce` computes. -/
def timeHorizon (tau : List ((α × α) × List Bool)) : ℕ :=
  match tau.map (fun p => p.2.length) with
  | [] => 1
  | h :: rest => rest.foldl pyLcm h

/-- Ordered `k`-tuples of elements of `V`, in the order of
`itertools.product(V, repeat=k)` (leftmost coordinate slowest). -/
def tuples (V : List α) : ℕ → List (List α)
  | 0 => [[]]
  | n + 1 => V.flatMap (fun v => (tuples V n).map (v :: ·))

/-- The tuples of `itertools.product(V, repeat=k+1)` split as `*c, r`:
the first `k` coordinates and the last one.  The last coordinate varies
fastest. -/
def tuplesCR (V : List α) (k : ℕ) : List (List α × α) :=
  (tuples V k).flatMap (fun c => V.map (fun r => (c, r)))

/-- Source lines 45-48: the state list
`V_gg = [(*c, r, s, t) for t in range(time_horizon) for s in [False, True]
for *c, r in itertools.product(V, repeat=k+1)]`. -/
def gameStates (V : List α) (k th : ℕ) : List (GGState α) :=
  (List.range th).flatMap (fun t =>
    [false, true].flatMap (fun s =>
      (tuplesCR V k).map (fun cr => GGState.mk cr.1 cr.2 s t)))

/-- The cop-move legality loop (source lines 60-69): for every slot `i`,
either `c0[i] == c1[i]` or the adjacency symbol of `(c0[i], c1[i])` at
time `t0` is not the symbol 0.  In every call both lists have length `k`,
so the slot-wise traversal is the traversal of `c0.zip c1`. -/
def copsMoveOk (tau : List ((α × α) × List Bool)) (t : ℕ)
    (c0 c1 : List α) : Bool :=
  (c0.zip c1).all (fun p => decide (p.1 = p.2) || present tau p.1 p.2 t)

/-- The body of `add_to_arcs` (source lines 54-81) as a predicate on an
ordered pair of states: does the worker append `(u, v)` to `A_gg`? -/
def addToArcs (tau : List ((α × α) × List Bool)) (th : ℕ)
    (u v : GGState α) : Bool :=
  if u.r ∈ u.cops then false
  else if u.t = v.t ∧ u.s = false ∧ v.s = true ∧ u.r = v.r then
    copsMoveOk tau u.t u.cops v.cops
  else if (u.t + 1) % th = v.t ∧ u.s = true ∧ v.s = false ∧ u.cops = v.cops
      ∧ v.r ∉ v.cops then
    decide (u.r = v.r) || present tau u.r v.r u.t
  else false

/-- All ordered pairs `itertools.product(V_gg, repeat=2)`, source line 87. -/
def statePairs (Vgg : List (GGState α)) : List (GGState α × GGState α) :=
  Vgg.flatMap (fun u => Vgg.map (fun v => (u, v)))

/-- Source line 28: if tau is None, tau becomes the mapping sending every
edge of `E` to the one-symbol always-present pattern. -/
def resolveTau (E : List (α × α)) (tau : Option (List ((α × α) × List Bool))) :
    List ((α × α) × List Bool) :=
  match tau with
  | none => E.map (fun e => (e, [true]))
  | some t => t

/-- The data content of `get_game_graph(V, E, tau, k)` (source lines
18-92): the state list and the arc list that `add_to_arcs` defines over
all ordered state pairs. -/
def get_game_graph (V : List α) (E : List (α × α))
    (tau : Option (List ((α × α) × List Bool))) (k : ℕ) :
    List (GGState α) × List (GGState α × GGState α) :=
  let τ := resolveTau E tau
  let th := timeHorizon τ
  let Vgg := gameStates V k th
  (Vgg, (statePairs Vgg).filter (fun p => addToArcs τ th p.1 p.2))

/-- Source lines 95-113, `game_graph_to_reachability_game(V_gg, A_gg)`:
one linear scan of `V_gg` appending each state to `S1` or `S0` by its turn
flag and additionally to `F` when the robber sits on a cop; the arc list
is a deep copy of `A_gg` (equal as data). -/
def game_graph_to_reachability_game (Vgg : List (GGState α))
    (Agg : List (GGState α × GGState α)) :
    List (GGState α) × List (GGState α) × List (GGState α × GGState α)
      × List (GGState α) :=
  (Vgg.filter (fun v => decide (v.s = false)),
   Vgg.filter (fun v => decide (v.s = true)),
   Agg,
   Vgg.filter (fun v => decide (v.r ∈ v.cops)))

/-- One insertion into `starting_classes` (source lines 133-135): dicts
keep insertion order, so a new cop-tuple key goes to the end, and adding a
robber position to the set of an existing key ignores duplicates. -/
def addClass : List (List α × List α) → List α → α → List (List α × List α)
  | [], c, r => [(c, [r])]
  | (co, rs) :: rest, c, r =>
    if co = c then (co, rs.insert r) :: rest
    else (co, rs) :: addClass rest c r

/-- One iteration of the grouping loop of `is_kcop_win` (source lines
130-135): a state contributes only when `t == 0 and not s`. -/
def classStep (cls : List (List α × List α)) (st : GGState α) :
    List (List α × List α) :=
  if st.t = 0 ∧ st.s = false then addClass cls st.cops st.r else cls

/-- The grouping loop of `is_kcop_win` over the whole attractor. -/
def startingClasses (attractor : List (GGState α)) : List (List α × List α) :=
  attractor.foldl classStep []

/-- The attractor `is_kcop_win` computes on source lines 124-126, with the
external solver `get_attractor` as the function parameter `getAtt` (the
source pulls it in from the module `reachability_game`, which is outside
this file). -/
def attractorOf
    (getAtt : List (GGState α) → List (GGState α) →
      List (GGState α × GGState α) → List (GGState α) → List (GGState α))
    (V : List α) (E : List (α × α))
    (tau : Option (List ((α × α) × List Bool))) (k : ℕ) : List (GGState α) :=
  let gg := get_game_graph V E tau k
  let rg := game_graph_to_reachability_game gg.1 gg.2
  getAtt rg.1 rg.2.1 rg.2.2.1 rg.2.2.2

/-- Source lines 116-139, `is_kcop_win(V, E, tau, k)`: group the attractor
states with `t == 0 and not s` by cop tuple and answer whether some class
collected `len(V)` distinct robber positions. -/
def is_kcop_win
    (getAtt : List (GGState α) → List (GGState α) →
      List (GGState α × GGState α) → List (GGState α) → List (GGState α))
    (V : List α) (E : List (α × α))
    (tau : Option (List ((α × α) × List Bool))) (k : ℕ) : Bool :=
  (startingClasses (attractorOf getAtt V E tau k)).any
    (fun cls => decide (cls.2.length = V.length))

/-! ### Module-level name resolution

The global scope of `cop_robber_game.py` binds exactly the imported names
(source lines 7-11: math, functools, itertools, copy, get_attractor), the
two constants, and the three function definitions.  The Python builtins
contain neither `mp` nor `Empty`, so they are not modelled. -/

/-- The name the expression `mp.JoinableQueue` on source line 84 resolves
first. -/
def mpName : String := "mp"

/-- The name the except clause on source line 81 resolves when a worker
sees its queue-get time out. -/
def emptyName : String := "Empty"

/-- The names bound in the global scope of the module. -/
def moduleScope : List String :=
  ["math", "functools", "itertools", "copy", "get_attractor",
   "MAX_POOL_PROCESSES", "MAX_QUEUE_SIZE",
   "get_game_graph", "game_graph_to_reachability_game", "is_kcop_win"]

/-- A Python runtime error, as far as this module can raise one. -/
inductive PyError where
  | nameError (n : String)
  | zeroDivisionError
deriving DecidableEq

/-- Resolving a global name: a name not bound in the module scope raises
NameError. -/
def resolveName (n : String) : Except PyError Unit :=
  if n ∈ moduleScope then Except.ok () else Except.error (PyError.nameError n)

/-- The reduce step of source lines 41-42 as executed:
`abs(x*y) // math.gcd(x, y)` raises ZeroDivisionError when the gcd is
zero, which happens exactly when both arguments are zero. -/
def pyLcmRun (x y : ℕ) : Except PyError ℕ :=
  if Nat.gcd x y = 0 then Except.error PyError.zeroDivisionError
  else Except.ok (x * y / Nat.gcd x y)

/-- Source lines 37-42 as executed: `functools.reduce` folds `pyLcmRun`
left to right and aborts at the first raise. -/
def timeHorizonRun (tau : List ((α × α) × List Bool)) : Except PyError ℕ :=
  match tau.map (fun p => p.2.length) with
  | [] => Except.ok 1
  | h :: rest => rest.foldlM pyLcmRun h

/-- What `get_game_graph` does when executed: the LCM reduce of source
lines 41-42 may raise ZeroDivisionError; after the rest of the pure part
(source lines 28-48 and the definition of `add_to_arcs`), line 84
evaluates `mp.JoinableQueue`, which looks up the unbound global name
`mp`. -/
def get_game_graphRun (V : List α) (E : List (α × α))
    (tau : Option (List ((α × α) × List Bool))) (k : ℕ) :
    Except PyError (List (GGState α) × List (GGState α × GGState α)) := do
  let τ := resolveTau E tau
  let th ← timeHorizonRun τ
  let Vgg := gameStates V k th
  let _ ← resolveName mpName
  pure (Vgg, (statePairs Vgg).filter (fun p => addToArcs τ th p.1 p.2))

/-- What `is_kcop_win` does when executed: it calls `get_game_graph` first
(source line 126). -/
def is_kcop_winRun
    (getAtt : List (GGState α) → List (GGState α) →
      List (GGState α × GGState α) → List (GGState α) → List (GGState α))
    (V : List α) (E : List (α × α))
    (tau : Option (List ((α × α) × List Bool))) (k : ℕ) :
    Except PyError Bool := do
  let gg ← get_game_graphRun V E tau k
  let rg := game_graph_to_reachability_game gg.1 gg.2
  let attractor := getAtt rg.1 rg.2.1 rg.2.2.1 rg.2.2.2
  pure ((startingClasses attractor).any (fun cls =>
    decide (cls.2.length = V.length)))

/-! ### Spec-side definitions, used to state the refinement claims -/

/-- Spec side, design document section 3 and section 8: the least common
multiple of a list of pattern lengths. -/
def lcmList (l : List ℕ) : ℕ := l.foldr Nat.lcm 1

/-- Spec side, claim C3: the stated legality conditions of a cop-move arc
from `u` to `v` under the presence mapping `tau`. -/
def copArcSpec (tau : List ((α × α) × List Bool)) (u v : GGState α) : Prop :=
  u.s = false ∧ v.s = true ∧ v.t = u.t ∧ v.r = u.r ∧ u.r ∉ u.cops ∧
  ∀ i (h0 : i < u.cops.length) (h1 : i < v.cops.length),
    u.cops.get ⟨i, h0⟩ = v.cops.get ⟨i, h1⟩ ∨
    present tau (u.cops.get ⟨i, h0⟩) (v.cops.get ⟨i, h1⟩) u.t = true

/-- Spec side, claim C4: the stated legality conditions of a robber-move
arc from `u` to `v` under the presence mapping `tau` and time horizon
`th`. -/
def robberArcSpec (tau : List ((α × α) × List Bool)) (th : ℕ)
    (u v : GGState α) : Prop :=
  u.s = true ∧ v.s = false ∧ v.t = (u.t + 1) % th ∧ v.cops = u.cops ∧
  u.r ∉ u.cops ∧ v.r ∉ v.cops ∧
  (v.r = u.r ∨ present tau u.r v.r u.t = true)

/-- Spec side, claim C5: the robber positions `r` for which the state
`(c, r, false, 0)` lies in the attractor (with multiplicity; the claims
compare the cardinality of its `toFinset`). -/
def robberStarts (attractor : List (GGState α)) (c : List α) : List α :=
  (attractor.filter (fun st =>
    decide (st.cops = c ∧ st.s = false ∧ st.t = 0))).map (fun st => st.r)

/-- Association-list lookup on the grouping structure, mirroring the
Python dict access `starting_classes[c]`. -/
def lookupC : List (List α × List α) → List α → Option (List α)
  | [], _ => none
  | (co, rs) :: rest, c => if co = c then some rs else lookupC rest c

/-- The loop invariant tying the grouping structure to the processed
prefix of the attractor: keys are distinct, a cop tuple is a key exactly
when it has contributed a state, and the class of a key holds each robber
position once. -/
def ClassInv (pre : List (GGState α)) (cls : List (List α × List α)) : Prop :=
  (cls.map Prod.fst).Nodup ∧
  (∀ c : List α, (lookupC cls c).isSome ↔ robberStarts pre c ≠ []) ∧
  (∀ c rs, lookupC cls c = some rs →
    rs.Nodup ∧ ∀ x, x ∈ rs ↔ x ∈ robberStarts pre c)

/-! ### Helper lemmas -/

omit [DecidableEq α] in
theorem mem_tuplesCR {V : List α} {k : ℕ} {c : List α} {r : α} :
    (c, r) ∈ tuplesCR V k ↔ c ∈ tuples V k ∧ r ∈ V := by
  simp only [tuplesCR, List.mem_flatMap, List.mem_map, Prod.mk.injEq]
  constructor
  · rintro ⟨c', hc', r', hr', rfl, rfl⟩
    exact ⟨hc', hr'⟩
  · rintro ⟨hc, hr⟩
    exact ⟨c, hc, r, hr, rfl, rfl⟩

omit [DecidableEq α] in
theorem tuples_length {V : List α} {k : ℕ} {c : List α}
    (h : c ∈ tuples V k) : c.length = k := by
  induction k generalizing c with
  | zero => simp only [tuples, List.mem_singleton] at h; simp [h]
  | succ n ih =>
    simp only [tuples, List.mem_flatMap, List.mem_map] at h
    obtain ⟨v, _, c', hc', rfl⟩ := h
    simp [ih hc']

omit [DecidableEq α] in
theorem tuples_ne_nil {V : List α} (hV : V ≠ []) (k : ℕ) :
    tuples V k ≠ [] := by
  induction k with
  | zero => simp [tuples]
  | succ n ih =>
    obtain ⟨v, V', rfl⟩ := List.exists_cons_of_ne_nil hV
    obtain ⟨c, hc⟩ := List.exists_mem_of_ne_nil _ ih
    have : (v :: c) ∈ tuples (v :: V') (n + 1) := by
      simp only [tuples, List.mem_flatMap, List.mem_map]
      exact ⟨v, List.mem_cons_self v V', c, hc, rfl⟩
    exact List.ne_nil_of_mem this

omit [DecidableEq α] in
theorem tuples_nil_of_pos {k : ℕ} (hk : 1 ≤ k) :
    tuples ([] : List α) k = [] := by
  cases k with
  | zero => exact absurd hk (by simp)
  | succ n => simp [tuples]

omit [DecidableEq α] in
theorem mem_gameStates {V : List α} {k th : ℕ} {st : GGState α} :
    st ∈ gameStates V k th ↔ st.t < th ∧ st.cops ∈ tuples V k ∧ st.r ∈ V := by
  obtain ⟨c, r, s, t⟩ := st
  simp only [gameStates, List.mem_flatMap, List.mem_map, List.mem_range,
    List.mem_cons, List.not_mem_nil, or_false]
  constructor
  · rintro ⟨t', ht', s', hs', ⟨pc, pr⟩, hp, heq⟩
    cases heq
    exact ⟨ht', (mem_tuplesCR.mp hp).1, (mem_tuplesCR.mp hp).2⟩
  · rintro ⟨ht, hc, hr⟩
    exact ⟨t, ht, s, by cases s <;> simp, (c, r), mem_tuplesCR.mpr ⟨hc, hr⟩, rfl⟩

omit [DecidableEq α] in
theorem mem_statePairs {Vgg : List (GGState α)} {u v : GGState α} :
    (u, v) ∈ statePairs Vgg ↔ u ∈ Vgg ∧ v ∈ Vgg := by
  simp only [statePairs, List.mem_flatMap, List.mem_map, Prod.mk.injEq]
  constructor
  · rintro ⟨u', hu', v', hv', rfl, rfl⟩
    exact ⟨hu', hv'⟩
  · rintro ⟨hu, hv⟩
    exact ⟨u, hu, v, hv, rfl, rfl⟩

theorem mem_arcs {V : List α} {E : List (α × α)}
    {tau : Option (List ((α × α) × List Bool))} {k : ℕ} {u v : GGState α} :
    (u, v) ∈ (get_game_graph V E tau k).2 ↔
      u ∈ (get_game_graph V E tau k).1 ∧ v ∈ (get_game_graph V E tau k).1 ∧
      addToArcs (resolveTau E tau) (timeHorizon (resolveTau E tau)) u v
        = true := by
  simp only [get_game_graph, List.mem_filter, mem_statePairs]
  tauto

omit [DecidableEq α] in
theorem foldl_pyLcm (l : List ℕ) (a : ℕ) :
    l.foldl pyLcm a = Nat.lcm a (lcmList l) := by
  induction l generalizing a with
  | nil => simp [lcmList, Nat.lcm_one_right]
  | cons b l ih =>
    simp only [List.foldl_cons, lcmList, List.foldr_cons]
    rw [show pyLcm a b = Nat.lcm a b from rfl, ih, Nat.lcm_assoc]
    rfl

omit [DecidableEq α] in
theorem foldlM_pyLcmRun (rest : List ℕ) :
    ∀ a : ℕ, (a :: rest).count 0 ≤ 1 →
      rest.foldlM pyLcmRun a = Except.ok (rest.foldl pyLcm a) := by
  induction rest with
  | nil =>
    intro a h
    rfl
  | cons b rest ih =>
    intro a h
    have hnb : ¬(a = 0 ∧ b = 0) := by
      rintro ⟨rfl, rfl⟩
      simp [List.count_cons] at h
    have hgcd : Nat.gcd a b ≠ 0 := by
      intro hg
      exact hnb ⟨Nat.eq_zero_of_gcd_eq_zero_left hg,
        Nat.eq_zero_of_gcd_eq_zero_right hg⟩
    have hstep : pyLcmRun a b = Except.ok (pyLcm a b) := by
      simp [pyLcmRun, pyLcm, hgcd]
    rw [List.foldlM_cons, hstep, List.foldl_cons]
    show rest.foldlM pyLcmRun (pyLcm a b)
      = Except.ok (rest.foldl pyLcm (pyLcm a b))
    apply ih
    by_cases ha : a = 0
    · subst ha
      have hb : b ≠ 0 := fun hb => hnb ⟨rfl, hb⟩
      have hz : pyLcm 0 b = 0 := by simp [pyLcm]
      rw [hz]
      simp only [List.count_cons, beq_iff_eq, hb] at h ⊢
      omega
    · by_cases hb : b = 0
      · subst hb
        have hz : pyLcm a 0 = 0 := by simp [pyLcm]
        rw [hz]
        simp only [List.count_cons, beq_iff_eq, ha] at h ⊢
        omega
      · have hlcm : pyLcm a b ≠ 0 := by
          show Nat.lcm a b ≠ 0
          simp [Nat.lcm_ne_zero, ha, hb]
        simp only [List.count_cons, beq_iff_eq, ha, hb, hlcm] at h ⊢
        omega

omit [DecidableEq α] in
theorem timeHorizonRun_ok {tau : List ((α × α) × List Bool)}
    (h : (tau.map (fun p => p.2.length)).count 0 ≤ 1) :
    timeHorizonRun tau = Except.ok (timeHorizon tau) := by
  unfold timeHorizonRun timeHorizon
  generalize hL : tau.map (fun p => p.2.length) = L at h ⊢
  cases L with
  | nil => rfl
  | cons hd rest => exact foldlM_pyLcmRun rest hd h

/-! ### Claim theorems -/

/-- Claim C2 counterexample: for an input whose `tau` holds two empty
patterns, the call raises ZeroDivisionError at the LCM reduce of source
lines 41-42 — not NameError — so the universal always-NameError statement
fails at this input. -/
theorem nameError_not_universal_cex :
    get_game_graphRun [1, 2, 3, 4] [(1, 2), (3, 4)]
        (some [(((1 : ℕ), (2 : ℕ)), ([] : List Bool)),
               (((3 : ℕ), (4 : ℕ)), [])]) 1
      = Except.error PyError.zeroDivisionError ∧
    (Except.error PyError.zeroDivisionError :
        Except PyError (List (GGState ℕ) × List (GGState ℕ × GGState ℕ)))
      ≠ Except.error (PyError.nameError mpName) :=
  ⟨rfl, fun h => by
    injection h with h2
    exact PyError.noConfusion h2⟩

/-- Claim C2 (amended): the module binds neither `mp` nor `Empty`; for
every input whose pattern-length list carries at most one zero (so the
LCM reduce cannot divide by `gcd(0, 0)`), `get_game_graph` raises
NameError at the line building the queue, before any `(V_gg, A_gg)` is
returned, and `is_kcop_win` does the same; moreover on every input
whatsoever `is_kcop_win` never returns a boolean verdict (the run ends in
NameError or ZeroDivisionError). -/
theorem get_game_graph_raises_nameError
    (getAtt : List (GGState α) → List (GGState α) →
      List (GGState α × GGState α) → List (GGState α) → List (GGState α))
    (V : List α) (E : List (α × α))
    (tau : Option (List ((α × α) × List Bool))) (k : ℕ)
    (hz : ((resolveTau E tau).map (fun p => p.2.length)).count 0 ≤ 1) :
    mpName ∉ moduleScope ∧ emptyName ∉ moduleScope ∧
    get_game_graphRun V E tau k = Except.error (PyError.nameError mpName) ∧
    is_kcop_winRun getAtt V E tau k
      = Except.error (PyError.nameError mpName) ∧
    (∀ (Vq : List α) (Eq : List (α × α))
      (tauq : Option (List ((α × α) × List Bool))) (kq : ℕ) (b : Bool),
      is_kcop_winRun getAtt Vq Eq tauq kq ≠ Except.ok b) := by
  have hrun : get_game_graphRun V E tau k
      = Except.error (PyError.nameError mpName) := by
    simp only [get_game_graphRun, timeHorizonRun_ok hz]
    rfl
  refine ⟨by decide, by decide, hrun, ?_, ?_⟩
  · unfold is_kcop_winRun
    rw [hrun]
    rfl
  · intro Vq Eq tauq kq b
    unfold is_kcop_winRun get_game_graphRun
    cases hth : timeHorizonRun (resolveTau Eq tauq) with
    | error e =>
      simp only [hth]
      exact fun h => Except.noConfusion h
    | ok th =>
      simp only [hth]
      exact fun h => Except.noConfusion h

theorem get_game_graph_raises_nameError_witness :
    ((((resolveTau ([] : List (ℕ × ℕ)) none).map
        (fun p => p.2.length)).count 0 ≤ 1)) ∧
    (mpName ∉ moduleScope ∧ emptyName ∉ moduleScope ∧
      get_game_graphRun [(0 : ℕ)] [] none 1
        = Except.error (PyError.nameError mpName) ∧
      is_kcop_winRun (fun _ _ _ _ => []) [(0 : ℕ)] [] none 1
        = Except.error (PyError.nameError mpName) ∧
      (∀ (Vq : List ℕ) (Eq : List (ℕ × ℕ))
        (tauq : Option (List ((ℕ × ℕ) × List Bool))) (kq : ℕ) (b : Bool),
        is_kcop_winRun (fun _ _ _ _ => []) Vq Eq tauq kq ≠ Except.ok b)) :=
  ⟨by decide,
    get_game_graph_raises_nameError (fun _ _ _ _ => []) [(0 : ℕ)] [] none 1
      (by decide)⟩

/-- Claim C6 (code_bug): an empty presence pattern is not rejected; the
LCM reduce yields a zero time horizon and the construction silently
returns an empty state set and arc set instead of raising a configuration
error. -/
theorem empty_pattern_not_rejected :
    timeHorizon [(((1 : ℕ), (2 : ℕ)), ([] : List Bool))] = 0 ∧
    get_game_graph [1, 2] [(1, 2)] (some [(((1 : ℕ), (2 : ℕ)), [])]) 1 =
      ([], []) := by
  decide

/-- Claim C7 (code_bug): `k = 0` is not rejected; the construction
proceeds and builds the game graph with an empty cop tuple, and
`is_kcop_win` runs on it and returns a boolean instead of raising an
invalid-input error. -/
theorem k_lt_one_not_rejected :
    (get_game_graph [(1 : ℕ)] [] (some []) 0).1 =
      [GGState.mk [] 1 false 0, GGState.mk [] 1 true 0] ∧
    is_kcop_win (fun _ _ _ _ => []) [(1 : ℕ)] [] (some []) 0 = false := by
  decide

/-- Claim C9 (confirmed): every arc the construction produces has a
non-capture source: the robber position of the source state is not among
its cop positions, whatever the turn flag and time index are. -/
theorem capture_states_no_out_arcs (V : List α) (E : List (α × α))
    (tau : Option (List ((α × α) × List Bool))) (k : ℕ) (u v : GGState α)
    (h : (u, v) ∈ (get_game_graph V E tau k).2) : u.r ∉ u.cops := by
  have h2 := (mem_arcs.mp h).2.2
  intro hcap
  simp [addToArcs, hcap] at h2

theorem capture_states_no_out_arcs_witness :
    ((GGState.mk [1] 2 false 0, GGState.mk [1] 2 true 0) ∈
      (get_game_graph [1, 2, 3] [(1, 2), (2, 3), (3, 1)] none 1).2) ∧
    (GGState.mk [(1 : ℕ)] 2 false 0).r ∉ (GGState.mk [(1 : ℕ)] 2 false 0).cops :=
  ⟨by decide,
    capture_states_no_out_arcs [1, 2, 3] [(1, 2), (2, 3), (3, 1)] none 1
      (GGState.mk [1] 2 false 0) (GGState.mk [1] 2 true 0) (by decide)⟩

/-- Claim C10 (confirmed): the reachability-game view splits the state
set exactly by the turn flag (no overlap, no omission), the target set is
exactly the capture states independent of flag and time, and the arc list
equals `A_gg`. -/
theorem reachability_game_partition (Vgg : List (GGState α))
    (Agg : List (GGState α × GGState α)) :
    (∀ st, st ∈ (game_graph_to_reachability_game Vgg Agg).1 ↔
        st ∈ Vgg ∧ st.s = false) ∧
    (∀ st, st ∈ (game_graph_to_reachability_game Vgg Agg).2.1 ↔
        st ∈ Vgg ∧ st.s = true) ∧
    (∀ st, ¬(st ∈ (game_graph_to_reachability_game Vgg Agg).1 ∧
        st ∈ (game_graph_to_reachability_game Vgg Agg).2.1)) ∧
    (∀ st, st ∈ Vgg ↔ st ∈ (game_graph_to_reachability_game Vgg Agg).1 ∨
        st ∈ (game_graph_to_reachability_game Vgg Agg).2.1) ∧
    (∀ st, st ∈ (game_graph_to_reachability_game Vgg Agg).2.2.2 ↔
        st ∈ Vgg ∧ st.r ∈ st.cops) ∧
    (game_graph_to_reachability_game Vgg Agg).2.2.1 = Agg := by
  refine ⟨fun st => ?_, fun st => ?_, ?_, fun st => ?_, fun st => ?_, rfl⟩
  · simp [game_graph_to_reachability_game, List.mem_filter]
  · simp [game_graph_to_reachability_game, List.mem_filter]
  · rintro st ⟨h0, h1⟩
    simp [game_graph_to_reachability_game, List.mem_filter] at h0 h1
    rw [h0.2] at h1
    exact Bool.false_ne_true h1.2
  · constructor
    · intro h
      cases hs : st.s
      · exact Or.inl (by
          simp [game_graph_to_reachability_game, List.mem_filter, h, hs])
      · exact Or.inr (by
          simp [game_graph_to_reachability_game, List.mem_filter, h, hs])
    · intro h
      rcases h with h | h <;>
      · simp [game_graph_to_reachability_game, List.mem_filter] at h
        exact h.1
  · simp [game_graph_to_reachability_game, List.mem_filter]

/-- Claim C8 (confirmed): the time horizon is the least common multiple
of the pattern lengths of `tau` (in particular `1` for an empty `tau`),
and the time indices realised in the state set are exactly the interval
`[0, time_horizon)` (for a non-empty vertex list). -/
theorem time_horizon_eq_lcm (V : List α) (E : List (α × α))
    (tau : List ((α × α) × List Bool)) (k : ℕ)
    (hpat : ∀ p ∈ tau, p.2 ≠ []) (hV : V ≠ []) :
    timeHorizon tau = lcmList (tau.map (fun p => p.2.length)) ∧
    (tau = [] → timeHorizon tau = 1) ∧
    (∀ t, (∃ st ∈ (get_game_graph V E (some tau) k).1, st.t = t) ↔
        t < timeHorizon tau) := by
  refine ⟨?_, ?_, ?_⟩
  · cases tau with
    | nil => rfl
    | cons p tau' =>
      show (tau'.map (fun p => p.2.length)).foldl pyLcm p.2.length = _
      rw [foldl_pyLcm]
      rfl
  · intro h
    subst h
    rfl
  · intro t
    constructor
    · rintro ⟨st, hst, rfl⟩
      exact (mem_gameStates.mp hst).1
    · intro ht
      obtain ⟨c, hc⟩ := List.exists_mem_of_ne_nil _ (tuples_ne_nil hV k)
      obtain ⟨r, hr⟩ := List.exists_mem_of_ne_nil _ hV
      exact ⟨GGState.mk c r false t, mem_gameStates.mpr ⟨ht, hc, hr⟩, rfl⟩

theorem time_horizon_eq_lcm_witness :
    (∀ p ∈ [(((1 : ℕ), (2 : ℕ)), [true, false])], p.2 ≠ ([] : List Bool)) ∧
    ([(1 : ℕ), 2] ≠ []) ∧
    (timeHorizon [(((1 : ℕ), (2 : ℕ)), [true, false])] =
        lcmList ([(((1 : ℕ), (2 : ℕ)), [true, false])].map
          (fun p => p.2.length)) ∧
      ([(((1 : ℕ), (2 : ℕ)), [true, false])] = [] →
        timeHorizon [(((1 : ℕ), (2 : ℕ)), [true, false])] = 1) ∧
      (∀ t, (∃ st ∈ (get_game_graph [1, 2] [(1, 2)]
            (some [(((1 : ℕ), (2 : ℕ)), [true, false])]) 1).1, st.t = t) ↔
          t < timeHorizon [(((1 : ℕ), (2 : ℕ)), [true, false])])) :=
  ⟨by decide, by decide,
    time_horizon_eq_lcm _ _ _ _ (by decide) (by decide)⟩

/-- Claim C1 counterexample: with the explicitly given empty mapping, the
edge `(0, 1)` of `E` is unmapped, its presence lookup is absent at time
`0` (not present as the claim states), and the game graph differs from
the static one built when `tau` is unspecified: the cop move `1` to `0`
along that edge is an arc of the static graph only. -/
theorem unmapped_edge_defaults_absent_cex :
    present ([] : List ((ℕ × ℕ) × List Bool)) 0 1 0 = false ∧
    ((GGState.mk [1] 0 false 0, GGState.mk [0] 0 true 0) ∈
      (get_game_graph [0, 1] [(0, 1)] none 1).2) ∧
    ((GGState.mk [1] 0 false 0, GGState.mk [0] 0 true 0) ∉
      (get_game_graph [0, 1] [(0, 1)] (some []) 1).2) := by
  decide

/-- Claim C1 (amended): an edge of `E` that a given `tau` maps under
neither orientation gets the constant-absent pattern: its presence lookup
is absent at every time step.  Only an unspecified `tau` (None) makes
every edge of `E` default to always-present, in which case the game graph
equals the one built from the explicit all-present mapping. -/
theorem unmapped_edge_always_absent (V : List α) (E : List (α × α))
    (tau : List ((α × α) × List Bool)) (k : ℕ) (u v : α)
    (h1 : ∀ p ∈ tau, p.1 ≠ (u, v)) (h2 : ∀ p ∈ tau, p.1 ≠ (v, u)) :
    (∀ t, present tau u v t = false) ∧
    get_game_graph V E none k =
      get_game_graph V E (some (E.map (fun e => (e, [true])))) k := by
  constructor
  · intro t
    have e1 : tau.find? (fun p => decide (p.1 = (u, v))) = none := by
      rw [List.find?_eq_none]
      intro p hp
      simpa using h1 p hp
    have e2 : tau.find? (fun p => decide (p.1 = (v, u))) = none := by
      rw [List.find?_eq_none]
      intro p hp
      simpa using h2 p hp
    simp [present, edgePattern, e1, e2]
  · rfl

theorem unmapped_edge_always_absent_witness :
    (∀ p ∈ ([] : List ((ℕ × ℕ) × List Bool)), p.1 ≠ (0, 1)) ∧
    (∀ p ∈ ([] : List ((ℕ × ℕ) × List Bool)), p.1 ≠ (1, 0)) ∧
    ((∀ t, present ([] : List ((ℕ × ℕ) × List Bool)) 0 1 t = false) ∧
      get_game_graph [0, 1] [(0, 1)] none 1 =
        get_game_graph [0, 1] [(0, 1)]
          (some ([((0 : ℕ), (1 : ℕ))].map (fun e => (e, [true])))) 1) :=
  ⟨by simp, by simp,
    unmapped_edge_always_absent _ _ _ _ _ _ (by simp) (by simp)⟩

theorem copsMoveOk_iff {tau : List ((α × α) × List Bool)} {t : ℕ}
    {c0 c1 : List α} :
    copsMoveOk tau t c0 c1 = true ↔
      ∀ i (h0 : i < c0.length) (h1 : i < c1.length),
        c0.get ⟨i, h0⟩ = c1.get ⟨i, h1⟩ ∨
        present tau (c0.get ⟨i, h0⟩) (c1.get ⟨i, h1⟩) t = true := by
  induction c0 generalizing c1 with
  | nil =>
    constructor
    · intro _ i h0 h1
      exact absurd h0 (Nat.not_lt_zero i)
    · intro _
      rfl
  | cons a c0 ih =>
    cases c1 with
    | nil =>
      constructor
      · intro _ i h0 h1
        exact absurd h1 (Nat.not_lt_zero i)
      · intro _
        rfl
    | cons b c1 =>
      simp only [copsMoveOk, List.zip_cons_cons, List.all_cons,
        Bool.and_eq_true, Bool.or_eq_true, decide_eq_true_eq] at *
      constructor
      · rintro ⟨hab, hrest⟩ i h0 h1
        cases i with
        | zero => exact hab
        | succ n =>
          exact (ih.mp hrest) n (Nat.lt_of_succ_lt_succ h0)
            (Nat.lt_of_succ_lt_succ h1)
      · intro h
        refine ⟨h 0 (by simp) (by simp), ih.mpr ?_⟩
        intro n h0 h1
        exact h (n + 1) (Nat.succ_lt_succ h0) (Nat.succ_lt_succ h1)

/-- Claim C3 (confirmed): among the produced arcs, those whose source has
the cop turn flag are exactly the pairs satisfying the stated cop-move
legality: same time, same robber position, flag flipping false to true,
non-capture source, and every cop slot either staying or moving along an
edge present at the source time. -/
theorem cop_move_arcs (V : List α) (E : List (α × α))
    (tau : Option (List ((α × α) × List Bool))) (k : ℕ) (u v : GGState α)
    (hu : u ∈ (get_game_graph V E tau k).1)
    (hv : v ∈ (get_game_graph V E tau k).1) :
    ((u, v) ∈ (get_game_graph V E tau k).2 ∧ u.s = false) ↔
      copArcSpec (resolveTau E tau) u v := by
  rw [mem_arcs]
  constructor
  · rintro ⟨⟨-, -, hadd⟩, hs⟩
    unfold addToArcs at hadd
    by_cases hcap : u.r ∈ u.cops
    · simp [hcap] at hadd
    · rw [if_neg hcap] at hadd
      by_cases hc1 : u.t = v.t ∧ u.s = false ∧ v.s = true ∧ u.r = v.r
      · rw [if_pos hc1] at hadd
        obtain ⟨ht, hs0, hs1, hr⟩ := hc1
        exact ⟨hs0, hs1, ht.symm, hr.symm, hcap,
          fun i h0 h1 => copsMoveOk_iff.mp hadd i h0 h1⟩
      · rw [if_neg hc1] at hadd
        by_cases hc2 : (u.t + 1) % timeHorizon (resolveTau E tau) = v.t ∧
            u.s = true ∧ v.s = false ∧ u.cops = v.cops ∧ v.r ∉ v.cops
        · obtain ⟨-, h, -⟩ := hc2
          rw [hs] at h
          exact absurd h (by simp)
        · rw [if_neg hc2] at hadd
          exact absurd hadd (by simp)
  · rintro ⟨hs0, hs1, ht, hr, hcap, hslots⟩
    refine ⟨⟨hu, hv, ?_⟩, hs0⟩
    unfold addToArcs
    rw [if_neg hcap, if_pos ⟨ht.symm, hs0, hs1, hr.symm⟩]
    exact copsMoveOk_iff.mpr hslots

theorem cop_move_arcs_witness :
    (GGState.mk [1] 2 false 0 ∈
      (get_game_graph [1, 2, 3] [(1, 2), (2, 3), (3, 1)] none 1).1) ∧
    (GGState.mk [2] 2 true 0 ∈
      (get_game_graph [1, 2, 3] [(1, 2), (2, 3), (3, 1)] none 1).1) ∧
    (((GGState.mk [1] 2 false 0, GGState.mk [2] 2 true 0) ∈
        (get_game_graph [1, 2, 3] [(1, 2), (2, 3), (3, 1)] none 1).2 ∧
      (GGState.mk [(1 : ℕ)] 2 false 0).s = false) ↔
      copArcSpec (resolveTau [(1, 2), (2, 3), (3, 1)] none)
        (GGState.mk [1] 2 false 0) (GGState.mk [2] 2 true 0)) :=
  ⟨by decide, by decide,
    cop_move_arcs [1, 2, 3] [(1, 2), (2, 3), (3, 1)] none 1
      (GGState.mk [1] 2 false 0) (GGState.mk [2] 2 true 0)
      (by decide) (by decide)⟩

/-- Claim C4 (confirmed): among the produced arcs, those whose source has
the robber turn flag are exactly the pairs satisfying the stated
robber-move legality: flag flipping true to false, time advancing by one
modulo the horizon (wrapping to zero), cops fixed, non-capture source,
destination not on a cop, and the robber staying or moving along an edge
present at the source time. -/
theorem robber_move_arcs (V : List α) (E : List (α × α))
    (tau : Option (List ((α × α) × List Bool))) (k : ℕ) (u v : GGState α)
    (hu : u ∈ (get_game_graph V E tau k).1)
    (hv : v ∈ (get_game_graph V E tau k).1) :
    ((u, v) ∈ (get_game_graph V E tau k).2 ∧ u.s = true) ↔
      robberArcSpec (resolveTau E tau) (timeHorizon (resolveTau E tau))
        u v := by
  rw [mem_arcs]
  constructor
  · rintro ⟨⟨-, -, hadd⟩, hs⟩
    unfold addToArcs at hadd
    by_cases hcap : u.r ∈ u.cops
    · simp [hcap] at hadd
    · rw [if_neg hcap] at hadd
      by_cases hc1 : u.t = v.t ∧ u.s = false ∧ v.s = true ∧ u.r = v.r
      · obtain ⟨-, h, -⟩ := hc1
        rw [hs] at h
        exact absurd h (by simp)
      · rw [if_neg hc1] at hadd
        by_cases hc2 : (u.t + 1) % timeHorizon (resolveTau E tau) = v.t ∧
            u.s = true ∧ v.s = false ∧ u.cops = v.cops ∧ v.r ∉ v.cops
        · rw [if_pos hc2] at hadd
          obtain ⟨ht, -, hs1, hc, hnc⟩ := hc2
          simp only [Bool.or_eq_true, decide_eq_true_eq] at hadd
          refine ⟨hs, hs1, ht.symm, hc.symm, hcap, hnc, ?_⟩
          rcases hadd with h | h
          · exact Or.inl h.symm
          · exact Or.inr h
        · rw [if_neg hc2] at hadd
          exact absurd hadd (by simp)
  · rintro ⟨hs1, hs0, ht, hc, hcap, hnc, hmv⟩
    refine ⟨⟨hu, hv, ?_⟩, hs1⟩
    unfold addToArcs
    rw [if_neg hcap]
    rw [if_neg (by
      rintro ⟨-, h, -⟩
      rw [hs1] at h
      exact absurd h (by simp))]
    rw [if_pos ⟨ht.symm, hs1, hs0, hc.symm, hnc⟩]
    simp only [Bool.or_eq_true, decide_eq_true_eq]
    rcases hmv with h | h
    · exact Or.inl h.symm
    · exact Or.inr h

theorem robber_move_arcs_witness :
    (GGState.mk [1] 2 true 0 ∈
      (get_game_graph [1, 2, 3] [(1, 2), (2, 3), (3, 1)] none 1).1) ∧
    (GGState.mk [1] 3 false 0 ∈
      (get_game_graph [1, 2, 3] [(1, 2), (2, 3), (3, 1)] none 1).1) ∧
    (((GGState.mk [1] 2 true 0, GGState.mk [1] 3 false 0) ∈
        (get_game_graph [1, 2, 3] [(1, 2), (2, 3), (3, 1)] none 1).2 ∧
      (GGState.mk [(1 : ℕ)] 2 true 0).s = true) ↔
      robberArcSpec (resolveTau [(1, 2), (2, 3), (3, 1)] none)
        (timeHorizon (resolveTau [(1, 2), (2, 3), (3, 1)] none))
        (GGState.mk [1] 2 true 0) (GGState.mk [1] 3 false 0)) :=
  ⟨by decide, by decide,
    robber_move_arcs [1, 2, 3] [(1, 2), (2, 3), (3, 1)] none 1
      (GGState.mk [1] 2 true 0) (GGState.mk [1] 3 false 0)
      (by decide) (by decide)⟩

theorem lookupC_eq_none {cls : List (List α × List α)} {c : List α} :
    lookupC cls c = none ↔ c ∉ cls.map Prod.fst := by
  induction cls with
  | nil => simp [lookupC]
  | cons p rest ih =>
    obtain ⟨co, rs⟩ := p
    by_cases h : co = c
    · subst h
      simp [lookupC]
    · simp only [lookupC, if_neg h, List.map_cons, List.mem_cons, ih]
      constructor
      · intro hn hm
        rcases hm with rfl | hm
        · exact h rfl
        · exact hn hm
      · intro hn hm
        exact hn (Or.inr hm)

theorem lookupC_mem {cls : List (List α × List α)} {c : List α} {rs : List α}
    (h : lookupC cls c = some rs) : (c, rs) ∈ cls := by
  induction cls with
  | nil => simp [lookupC] at h
  | cons p rest ih =>
    obtain ⟨co, rs0⟩ := p
    by_cases hc : co = c
    · subst hc
      simp only [lookupC, if_pos rfl] at h
      injection h with h
      subst h
      exact List.mem_cons_self _ _
    · simp only [lookupC, if_neg hc] at h
      exact List.mem_cons_of_mem _ (ih h)

theorem mem_lookupC {cls : List (List α × List α)} {p : List α × List α}
    (hp : p ∈ cls) (hnd : (cls.map Prod.fst).Nodup) :
    lookupC cls p.1 = some p.2 := by
  induction cls with
  | nil => cases hp
  | cons q rest ih =>
    obtain ⟨co, rs0⟩ := q
    rw [List.map_cons, List.nodup_cons] at hnd
    rcases List.mem_cons.mp hp with rfl | hp'
    · simp [lookupC]
    · have hne : co ≠ p.1 := by
        intro h
        exact hnd.1 (List.mem_map.mpr ⟨p, hp', h.symm⟩)
      simp only [lookupC, if_neg hne]
      exact ih hp' hnd.2

theorem lookupC_addClass_of_none {cls : List (List α × List α)}
    {c : List α} {r : α} (h : lookupC cls c = none) :
    lookupC (addClass cls c r) c = some [r] := by
  induction cls with
  | nil => simp [addClass, lookupC]
  | cons p rest ih =>
    obtain ⟨co, rs⟩ := p
    by_cases hc : co = c
    · simp only [lookupC, if_pos hc] at h
      cases h
    · simp only [lookupC, if_neg hc] at h
      simp only [addClass, if_neg hc, lookupC, if_neg hc]
      exact ih h

theorem lookupC_addClass_of_some {cls : List (List α × List α)}
    {c rs : List α} {r : α} (h : lookupC cls c = some rs) :
    lookupC (addClass cls c r) c = some (rs.insert r) := by
  induction cls with
  | nil => simp [lookupC] at h
  | cons p rest ih =>
    obtain ⟨co, rs0⟩ := p
    by_cases hc : co = c
    · simp only [lookupC, if_pos hc] at h
      injection h with h
      subst h
      simp only [addClass, if_pos hc, lookupC, if_pos hc]
    · simp only [lookupC, if_neg hc] at h
      simp only [addClass, if_neg hc, lookupC, if_neg hc]
      exact ih h

theorem lookupC_addClass_other {cls : List (List α × List α)}
    {c cq : List α} {r : α} (h : cq ≠ c) :
    lookupC (addClass cls c r) cq = lookupC cls cq := by
  induction cls with
  | nil =>
    simp only [addClass, lookupC]
    rw [if_neg (fun hh => h hh.symm)]
  | cons p rest ih =>
    obtain ⟨co, rs0⟩ := p
    by_cases hc : co = c
    · simp only [addClass, if_pos hc, lookupC]
      rw [if_neg (by rw [hc]; exact fun hh => h hh.symm),
        if_neg (by rw [hc]; exact fun hh => h hh.symm)]
    · simp only [addClass, if_neg hc, lookupC]
      by_cases hq : co = cq
      · rw [if_pos hq, if_pos hq]
      · rw [if_neg hq, if_neg hq]
        exact ih

theorem keys_addClass_of_none {cls : List (List α × List α)}
    {c : List α} {r : α} (h : lookupC cls c = none) :
    (addClass cls c r).map Prod.fst = cls.map Prod.fst ++ [c] := by
  induction cls with
  | nil => simp [addClass]
  | cons p rest ih =>
    obtain ⟨co, rs0⟩ := p
    by_cases hc : co = c
    · simp only [lookupC, if_pos hc] at h
      cases h
    · simp only [lookupC, if_neg hc] at h
      simp [addClass, if_neg hc, ih h]

theorem keys_addClass_of_some {cls : List (List α × List α)}
    {c rs : List α} {r : α} (h : lookupC cls c = some rs) :
    (addClass cls c r).map Prod.fst = cls.map Prod.fst := by
  induction cls with
  | nil => simp [lookupC] at h
  | cons p rest ih =>
    obtain ⟨co, rs0⟩ := p
    by_cases hc : co = c
    · simp [addClass, if_pos hc]
    · simp only [lookupC, if_neg hc] at h
      simp [addClass, if_neg hc, ih h]

theorem robberStarts_append {l1 l2 : List (GGState α)} {c : List α} :
    robberStarts (l1 ++ l2) c = robberStarts l1 c ++ robberStarts l2 c := by
  simp [robberStarts, List.filter_append]

theorem robberStarts_singleton {st : GGState α} {c : List α} :
    robberStarts [st] c =
      if st.cops = c ∧ st.s = false ∧ st.t = 0 then [st.r] else [] := by
  by_cases h : st.cops = c ∧ st.s = false ∧ st.t = 0
  · simp [robberStarts, List.filter_cons, h]
  · simp [robberStarts, List.filter_cons, h]

theorem nodup_length_eq_toFinset_card {rs l : List α} (hnd : rs.Nodup)
    (hmem : ∀ x, x ∈ rs ↔ x ∈ l) : rs.length = l.toFinset.card := by
  have h1 : rs.toFinset = l.toFinset := by
    ext x
    simp [List.mem_toFinset, hmem x]
  rw [← List.toFinset_card_of_nodup hnd, h1]

theorem classStep_inv {pre : List (GGState α)}
    {cls : List (List α × List α)} {st : GGState α}
    (h : ClassInv pre cls) : ClassInv (pre ++ [st]) (classStep cls st) := by
  obtain ⟨hnodup, hkeys, hentries⟩ := h
  unfold classStep
  by_cases hact : st.t = 0 ∧ st.s = false
  · rw [if_pos hact]
    have hrs : ∀ c, robberStarts (pre ++ [st]) c =
        robberStarts pre c ++ (if st.cops = c then [st.r] else []) := by
      intro c
      rw [robberStarts_append]
      congr 1
      rw [robberStarts_singleton]
      by_cases hc : st.cops = c
      · rw [if_pos ⟨hc, hact.2, hact.1⟩, if_pos hc]
      · rw [if_neg (fun hh => hc hh.1), if_neg hc]
    refine ⟨?_, ?_, ?_⟩
    · cases hlook : lookupC cls st.cops with
      | none =>
        rw [keys_addClass_of_none hlook]
        have hnotin : st.cops ∉ cls.map Prod.fst := lookupC_eq_none.mp hlook
        rw [List.nodup_append]
        exact ⟨hnodup, List.nodup_singleton _, fun a ha hb =>
          hnotin ((List.mem_singleton.mp hb) ▸ ha)⟩
      | some rs => rw [keys_addClass_of_some hlook]; exact hnodup
    · intro c
      rw [hrs c]
      by_cases hc : st.cops = c
      · subst hc
        rw [if_pos rfl]
        constructor
        · intro _
          simp
        · intro _
          cases hlook : lookupC cls st.cops with
          | none => rw [lookupC_addClass_of_none hlook]; rfl
          | some rs => rw [lookupC_addClass_of_some hlook]; rfl
      · rw [if_neg hc, List.append_nil,
          lookupC_addClass_other (show c ≠ st.cops from fun hh => hc hh.symm)]
        exact hkeys c
    · intro c rs' hlook'
      rw [hrs c]
      by_cases hc : st.cops = c
      · subst hc
        cases hlook : lookupC cls st.cops with
        | none =>
          rw [lookupC_addClass_of_none hlook] at hlook'
          injection hlook' with hlook'
          subst hlook'
          have hempty : robberStarts pre st.cops = [] := by
            by_contra hne
            have := (hkeys st.cops).mpr hne
            rw [hlook] at this
            exact absurd this (by simp)
          rw [hempty, if_pos rfl]
          exact ⟨List.nodup_singleton _, fun x => by simp⟩
        | some rs0 =>
          rw [lookupC_addClass_of_some hlook] at hlook'
          injection hlook' with hlook'
          subst hlook'
          obtain ⟨hnd0, hmem0⟩ := hentries st.cops rs0 hlook
          refine ⟨hnd0.insert, fun x => ?_⟩
          rw [List.mem_insert_iff, if_pos rfl, List.mem_append,
            List.mem_singleton, hmem0 x]
          tauto
      · rw [if_neg hc, List.append_nil]
        rw [lookupC_addClass_other
          (show c ≠ st.cops from fun hh => hc hh.symm)] at hlook'
        exact hentries c rs' hlook'
  · rw [if_neg hact]
    have hrs : ∀ c, robberStarts (pre ++ [st]) c = robberStarts pre c := by
      intro c
      rw [robberStarts_append, robberStarts_singleton,
        if_neg (fun hh => hact ⟨hh.2.2, hh.2.1⟩)]
      exact List.append_nil _
    exact ⟨hnodup, fun c => (hrs c) ▸ hkeys c,
      fun c rs h => (hrs c) ▸ hentries c rs h⟩

theorem foldl_classStep_inv (att : List (GGState α)) :
    ∀ pre cls, ClassInv pre cls →
      ClassInv (pre ++ att) (att.foldl classStep cls) := by
  induction att with
  | nil =>
    intro pre cls h
    simpa using h
  | cons st att ih =>
    intro pre cls h
    rw [List.foldl_cons, show pre ++ st :: att = (pre ++ [st]) ++ att by simp]
    exact ih (pre ++ [st]) (classStep cls st) (classStep_inv h)

theorem startingClasses_inv (att : List (GGState α)) :
    ClassInv att (startingClasses att) := by
  have h0 : ClassInv ([] : List (GGState α))
      ([] : List (List α × List α)) := by
    refine ⟨List.nodup_nil, fun c => ?_, fun c rs h => by simp [lookupC] at h⟩
    simp [lookupC, robberStarts]
  have := foldl_classStep_inv att [] [] h0
  simpa [startingClasses] using this

/-- Claim C5 (confirmed): whenever the external attractor lies inside the
game-graph state set (its contract), `is_kcop_win` returns true exactly
when some cop tuple over `V` has a set of attractor-covered robber starts
(at time zero, cops to move) of cardinality `|V|`, and false otherwise,
always a strict boolean. -/
theorem is_kcop_win_iff
    (getAtt : List (GGState α) → List (GGState α) →
      List (GGState α × GGState α) → List (GGState α) → List (GGState α))
    (V : List α) (E : List (α × α))
    (tau : Option (List ((α × α) × List Bool))) (k : ℕ) (hk : 1 ≤ k)
    (hsub : ∀ st ∈ attractorOf getAtt V E tau k,
      st ∈ (get_game_graph V E tau k).1) :
    is_kcop_win getAtt V E tau k = true ↔
      ∃ c ∈ tuples V k,
        (robberStarts (attractorOf getAtt V E tau k) c).toFinset.card
          = V.length := by
  obtain ⟨hnodup, hkeys, hentries⟩ :=
    startingClasses_inv (attractorOf getAtt V E tau k)
  unfold is_kcop_win
  rw [List.any_eq_true]
  constructor
  · rintro ⟨p, hp, hlen⟩
    rw [decide_eq_true_eq] at hlen
    have hlook := mem_lookupC hp hnodup
    obtain ⟨hnd, hmem⟩ := hentries p.1 p.2 hlook
    have hne : robberStarts (attractorOf getAtt V E tau k) p.1 ≠ [] :=
      (hkeys p.1).mp (by rw [hlook]; rfl)
    obtain ⟨x, hx⟩ := List.exists_mem_of_ne_nil _ hne
    simp only [robberStarts, List.mem_map, List.mem_filter,
      decide_eq_true_eq] at hx
    obtain ⟨st, ⟨hst, hstc, -, -⟩, -⟩ := hx
    refine ⟨p.1, ?_, ?_⟩
    · have := mem_gameStates.mp (hsub st hst)
      exact hstc ▸ this.2.1
    · rw [← nodup_length_eq_toFinset_card hnd hmem]
      exact hlen
  · rintro ⟨c, hcT, hcard⟩
    by_cases hne : robberStarts (attractorOf getAtt V E tau k) c = []
    · rw [hne] at hcard
      simp only [List.toFinset_nil, Finset.card_empty] at hcard
      have hVnil : V = [] := List.length_eq_zero.mp hcard.symm
      rw [hVnil, tuples_nil_of_pos hk] at hcT
      exact absurd hcT (List.not_mem_nil c)
    · have hsome := (hkeys c).mpr hne
      obtain ⟨rs, hrs⟩ := Option.isSome_iff_exists.mp hsome
      obtain ⟨hnd, hmem⟩ := hentries c rs hrs
      refine ⟨(c, rs), lookupC_mem hrs, ?_⟩
      rw [decide_eq_true_eq]
      rw [nodup_length_eq_toFinset_card hnd hmem]
      exact hcard

theorem is_kcop_win_iff_witness :
    (1 ≤ 1) ∧
    (∀ st ∈ attractorOf (fun _ _ _ _ => []) [(0 : ℕ)] [] (some []) 1,
      st ∈ (get_game_graph [(0 : ℕ)] [] (some []) 1).1) ∧
    (is_kcop_win (fun _ _ _ _ => []) [(0 : ℕ)] [] (some []) 1 = true ↔
      ∃ c ∈ tuples [(0 : ℕ)] 1,
        (robberStarts
          (attractorOf (fun _ _ _ _ => []) [(0 : ℕ)] [] (some []) 1)
          c).toFinset.card = [(0 : ℕ)].length) :=
  ⟨by decide, by simp [attractorOf],
    is_kcop_win_iff (fun _ _ _ _ => []) [(0 : ℕ)] [] (some []) 1
      (by decide) (by simp [attractorOf])⟩

end CopRobber
